import Mathlib

/-!
Shallow embedding of the juju-loggo logging library (Go), covering the
module registry (module.go) and the writer composition primitives
(writer.go), together with the Level ordering they rely on.

Level constants, `IsLevelEnabled`, the `loggerState` methods
(`MinLogLevel`, `config`, the effective-level walk, `SetLogLevel`) and the
package constants `defaultLevel` / `defaultRootLevel` are not part of the
provided source files; each such definition is marked
"Modelled from the spec:" in its doc comment and follows the design
document's wording.

Go strings are modelled as lists of characters; the names handled by the
registry use only ASCII, where a byte-wise split at the last '.' (Go
strings.LastIndex) coincides with the character-wise split used here.
-/

/-- Modelled from the spec: the `Level` enumeration is not under src/.
The spec lists the severities "from most to least severe: CRITICAL,
ERROR, WARNING, INFO, DEBUG, TRACE, plus UNSPECIFIED as a sentinel".
The numeric direction is fixed by the source in writer.go: `NewTeeWriter`
seeds a numeric-minimum fold at CRITICAL and the spec's example says the
result for floors WARNING and INFO is INFO, and `StdioWriter.WriteRecord`
sends `rec.Level <= INFO` to the out stream, which the spec describes as
"INFO-or-less-severe". Hence UNSPECIFIED is 0 and severities increase up
to CRITICAL. -/
inductive Level where
  | UNSPECIFIED
  | TRACE
  | DEBUG
  | INFO
  | WARNING
  | ERROR
  | CRITICAL
deriving DecidableEq, Repr

/-- The numeric value of a level (the Go constants are consecutive,
starting with UNSPECIFIED at 0). -/
def Level.toNat : Level → Nat
  | .UNSPECIFIED => 0
  | .TRACE => 1
  | .DEBUG => 2
  | .INFO => 3
  | .WARNING => 4
  | .ERROR => 5
  | .CRITICAL => 6

/-- Modelled from the spec: `IsLevelEnabled` is not under src/.
"a level is enabled relative to a floor when the floor is UNSPECIFIED
(always true) or the level is at least as severe as the floor".
With UNSPECIFIED at numeric value 0 both cases are the single numeric
comparison used below. -/
def IsLevelEnabled (floor level : Level) : Bool :=
  floor.toNat ≤ level.toNat

/-- A log record (record.go). The timestamp is abstracted to a number. -/
structure Record where
  level : Level
  module : List Char
  filename : List Char
  line : Nat
  timestamp : Nat
  message : List Char
deriving DecidableEq, Repr

/-- The two streams an `StdioWriter` can route a record to. -/
inductive StdioTarget where
  | out
  | err
deriving DecidableEq, Repr

/-- `StdioWriter.WriteRecord` (writer.go): the out writer receives the
record if `rec.Level <= INFO`, otherwise the err writer does. The result
names the stream that receives the record. -/
def stdioWriteRecord (rec : Record) : StdioTarget :=
  if rec.level.toNat ≤ Level.INFO.toNat then StdioTarget.out else StdioTarget.err

/-- A writer wrapped by a `TeeWriter` (writer.go). `leveled` models a
writer whose dynamic type implements `MinLevelWriter` (it exposes a
minimum level); `plain` models any other writer. The `id` identifies the
underlying writer object. -/
inductive TeeSink where
  | leveled (minLevel : Level) (id : Nat)
  | plain (id : Nat)
deriving DecidableEq, Repr

/-- The floor a tee sink exposes, if any. -/
def TeeSink.floor? : TeeSink → Option Level
  | .leveled l _ => some l
  | .plain _ => none

/-- The loop body of `NewTeeWriter` (writer.go): fold the numeric minimum
of the exposed floors, breaking out with UNSPECIFIED at the first wrapped
writer that does not implement `MinLevelWriter`. -/
def combineLoop : Level → List TeeSink → Level
  | acc, [] => acc
  | _, .plain _ :: _ => Level.UNSPECIFIED
  | acc, .leveled ml _ :: ws =>
      combineLoop (if ml.toNat < acc.toNat then ml else acc) ws

/-- `NewTeeWriter` (writer.go): the combined minimum level stored at
construction. It starts as UNSPECIFIED and, when the writer list is
nonempty, is replaced by the loop's fold seeded at CRITICAL. -/
def NewTeeWriterLevel (writers : List TeeSink) : Level :=
  if writers.isEmpty then Level.UNSPECIFIED
  else combineLoop Level.CRITICAL writers

/-- `TeeWriter.Write` (writer.go): the ordered list of wrapped writers
that receive the record. A writer that does not implement
`MinLevelWriter` is skipped by the `continue`, as is one whose level is
not enabled for the record. -/
def teeWrite (writers : List TeeSink) (recLevel : Level) : List TeeSink :=
  writers.filter fun w =>
    match w with
    | .plain _ => false
    | .leveled ml _ => IsLevelEnabled ml recLevel

/-! ## The module registry (module.go) -/

/-- A module name: a Go string, modelled as a list of characters. -/
abbrev Name := List Char

/-- The constant rootName (module.go). -/
def rootName : Name := '<' :: 'r' :: 'o' :: 'o' :: 't' :: '>' :: []

/-- The constant rootModuleName (module.go): the empty string. -/
def rootModuleName : Name := []

/-- ASCII lowercasing of one character. Go's strings.ToLower performs
Unicode case mapping; registry names here are ASCII, where the two
coincide. -/
def toLowerChar (c : Char) : Char :=
  if 'A' ≤ c ∧ c ≤ 'Z' then Char.ofNat (c.toNat + 32) else c

/-- strings.ToLower, character by character. -/
def toLowerName (n : Name) : Name := n.map toLowerChar

/-- The parent name computed in `modules.resolveUnlocked` (module.go):
everything before the last '.', or the root module name when the name
holds no dot (Go: strings.LastIndex plus slicing). -/
def parentOf (n : Name) : Name :=
  if n.contains '.' then ((n.reverse.dropWhile (fun c => c ≠ '.')).tail).reverse
  else rootModuleName

/-- The `loggerState` struct. Its fields are taken from the uses in
module.go: name, level, defaultLevel and parent. Go's parent pointer is
modelled as the parent's key in the registry map (pointers into the map
are identified by their key, since an entry is never replaced). -/
structure LoggerState where
  name : Name
  level : Level
  defaultLevel : Level
  parent : Option Name
deriving DecidableEq, Repr

/-- Go map lookup on the association-list model of `m.all`. -/
def lookupMod : List (Name × LoggerState) → Name → Option LoggerState
  | [], _ => none
  | (k, v) :: rest, key => if k = key then some v else lookupMod rest key

/-- Go map insertion `m.all[name] = impl`: replace the entry when the key
is present, otherwise append it. -/
def insertMod : List (Name × LoggerState) → Name → LoggerState → List (Name × LoggerState)
  | [], key, v => [(key, v)]
  | (k, w) :: rest, key, v =>
      if k = key then (key, v) :: rest else (k, w) :: insertMod rest key v

/-- The atomic store `module.level.set(l)` on the node stored under a
given key. -/
def updateLevel : List (Name × LoggerState) → Name → Level → List (Name × LoggerState)
  | [], _, _ => []
  | (k, v) :: rest, key, l =>
      if k = key then (k, { v with level := l }) :: updateLevel rest key l
      else (k, v) :: updateLevel rest key l

/-- The keys of the association list are pairwise distinct (true of every
Go map, used by the well-formedness predicate). -/
def keysNodup (all : List (Name × LoggerState)) : Bool :=
  decide (all.map Prod.fst).Nodup

/-- Modelled from the spec: the package constant `defaultRootLevel` is
not under src/. The comment on `modules.resetLevels` (module.go) says the
root "is set to WARNING". -/
def defaultRootLevel : Level := Level.WARNING

/-- Modelled from the spec: the package constant `defaultLevel` is not
under src/. The comment on `modules.resetLevels` (module.go) says every
module other than the root is set to UNSPECIFIED, and the spec's data
model says a non-root node's level "may be UNSPECIFIED", inheriting from
its parent; so newly created submodules receive UNSPECIFIED. -/
def defaultLevel : Level := Level.UNSPECIFIED

/-- `newRootModule` (module.go). -/
def newRootModule : LoggerState :=
  { name := rootName
    level := defaultRootLevel
    defaultLevel := defaultRootLevel
    parent := none }

/-- `newSubmodule` (module.go). The Go struct literal leaves the
defaultLevel field at its zero value, which is UNSPECIFIED. -/
def newSubmodule (name : Name) (parent : Name) (level : Level) : LoggerState :=
  let name := toLowerName name
  { name := name
    level := level
    defaultLevel := Level.UNSPECIFIED
    parent := some parent }

/-- The `modules` struct (module.go). The nil Go map of the zero value is
modelled as the empty association list (an initialized map always holds
the root module, so it is never empty). -/
structure Modules where
  rootLevel : Level
  defaultLevel : Level
  all : List (Name × LoggerState)
deriving DecidableEq, Repr

/-- `modules.initUnlocked` (module.go). -/
def initUnlocked (m : Modules) : Modules :=
  let rl := if m.rootLevel = Level.UNSPECIFIED then defaultRootLevel else m.rootLevel
  let dl := if m.defaultLevel = Level.UNSPECIFIED then defaultLevel else m.defaultLevel
  let root := { newRootModule with level := rl }
  { rootLevel := rl
    defaultLevel := dl
    all := [(rootModuleName, root)] }

/-- `modules.maybeInitUnlocked` (module.go): initialize when the map is
still the nil map of the zero value. -/
def maybeInitUnlocked (m : Modules) : Modules :=
  if m.all = [] then initUnlocked m else m

/-- `newModules` (module.go). -/
def newModules (rootLevel : Level) : Modules :=
  initUnlocked { rootLevel := rootLevel, defaultLevel := defaultLevel, all := [] }

/-- The zero value of the `modules` struct (rootLevel and defaultLevel
are the zero Level, UNSPECIFIED; the map is nil). -/
def zeroModules : Modules :=
  { rootLevel := Level.UNSPECIFIED, defaultLevel := Level.UNSPECIFIED, all := [] }

/-- `modules.resolveUnlocked` (module.go), with an explicit fuel argument
to express the recursion on the parent name; `none` models divergence,
which never occurs when the root module is present (see the totality
lemma below). The returned Name is the key of the resolved node, which
models the returned pointer. -/
def resolveUnlocked (m : Modules) : Nat → Name → Option (Modules × Name)
  | 0, _ => none
  | fuel + 1, name0 =>
      let name := if name0 = rootName then rootModuleName else name0
      match lookupMod m.all name with
      | some _ => some (m, name)
      | none =>
          match resolveUnlocked m fuel (parentOf name) with
          | none => none
          | some (m2, parentKey) =>
              let impl := newSubmodule name parentKey m.defaultLevel
              some ({ m2 with all := insertMod m2.all name impl }, name)

/-- `modules.get` (module.go): guarantee a root module, lowercase the
name, and resolve. The fuel suffices because the parent name computed at
each step is strictly shorter. -/
def modulesGet (m : Modules) (name : Name) : Option (Modules × Name) :=
  let m := maybeInitUnlocked m
  let name := toLowerName name
  resolveUnlocked m (name.length + 1) name

/-- Modelled from the spec: `loggerState.MinLogLevel` is not under src/.
`modules.config` excludes "Modules with UNSPECIFIED level", and the
spec's snapshotConfig "returns every node whose own level is concrete",
so the method reads the node's own level. -/
def moduleMinLogLevel (s : LoggerState) : Level := s.level

/-- Modelled from the spec: `loggerState.config` is not under src/. The
spec's snapshotConfig returns a mapping from name to level, so a node's
configuration entry is its own level. -/
def moduleConfig (s : LoggerState) : Level := s.level

/-- The mapping built by `modules.config` (module.go): every module whose
own level is concrete, keyed by the node's display name. -/
def configList (all : List (Name × LoggerState)) : List (Name × Level) :=
  (all.filter fun p => moduleMinLogLevel p.2 ≠ Level.UNSPECIFIED).map
    fun p => (p.2.name, moduleConfig p.2)

/-- `modules.config` (module.go): it first guarantees a root module (the
resulting state is returned alongside the mapping). -/
def modulesConfig (m : Modules) : Modules × List (Name × Level) :=
  let m := maybeInitUnlocked m
  (m, configList m.all)

/-- `modules.resetLevels` (module.go). -/
def resetLevels (m : Modules) : Modules :=
  { m with
    all := m.all.map fun p =>
      if p.1 = rootModuleName then (p.1, { p.2 with level := m.rootLevel })
      else (p.1, { p.2 with level := m.defaultLevel }) }

/-- Modelled from the spec: the SetLogLevel operation on a node is not
under src/. "setLevel(node, level): sets the node's level directly to
level (including UNSPECIFIED, except the root node must reject
UNSPECIFIED and instead fall back to the registry's configured root
level)". The node is designated by its key. -/
def setLogLevel (m : Modules) (x : Name) (l : Level) : Modules :=
  let l := if x = rootModuleName ∧ l = Level.UNSPECIFIED then m.rootLevel else l
  { m with all := updateLevel m.all x l }

/-- Modelled from the spec: the effective-level walk
(SubLogger.EffectiveLogLevel) is not under src/. "walks from node up
through parent links, returning the first concrete (non-UNSPECIFIED)
level encountered". Fuel expresses the walk; it suffices because parent
keys are strictly shorter in every well-formed registry. -/
def effLevelFuel (all : List (Name × LoggerState)) : Nat → Name → Level
  | 0, _ => Level.UNSPECIFIED
  | fuel + 1, name =>
      match lookupMod all name with
      | none => Level.UNSPECIFIED
      | some node =>
          if node.level = Level.UNSPECIFIED then
            match node.parent with
            | none => Level.UNSPECIFIED
            | some p => effLevelFuel all fuel p
          else node.level

/-- The effective level of the node stored under a key. -/
def effectiveLogLevel (m : Modules) (x : Name) : Level :=
  effLevelFuel m.all (x.length + 1) x

/-- The own levels along the parent chain starting at a key. -/
def chainLevels (all : List (Name × LoggerState)) : Nat → Name → List Level
  | 0, _ => []
  | fuel + 1, name =>
      match lookupMod all name with
      | none => []
      | some node =>
          node.level ::
            (match node.parent with
             | none => []
             | some p => chainLevels all fuel p)

/-- The keys along the parent chain starting at a key (the key itself
first). -/
def chainNames (all : List (Name × LoggerState)) : Nat → Name → List Name
  | 0, _ => []
  | fuel + 1, name =>
      match lookupMod all name with
      | none => []
      | some node =>
          name ::
            (match node.parent with
             | none => []
             | some p => chainNames all fuel p)

/-- The first concrete level of a list, UNSPECIFIED when there is none. -/
def firstConcreteLevel (ls : List Level) : Level :=
  match ls.find? (fun l => l ≠ Level.UNSPECIFIED) with
  | some l => l
  | none => Level.UNSPECIFIED

/-- The root-module invariant of the spec: the configured root level is
concrete and the registry holds a root node whose own level is
concrete. -/
def RootInv (m : Modules) : Prop :=
  m.rootLevel ≠ Level.UNSPECIFIED ∧
  ∃ r, lookupMod m.all rootModuleName = some r ∧ r.level ≠ Level.UNSPECIFIED

/-- Decidable check of the full well-formedness of a registry state,
used to discharge hypotheses on concrete states by evaluation. -/
def WFmodb (m : Modules) : Bool :=
  decide (m.rootLevel ≠ Level.UNSPECIFIED) &&
  decide (m.defaultLevel = Level.UNSPECIFIED) &&
  (match lookupMod m.all rootModuleName with
   | some r =>
       decide (r.parent = none) && decide (r.level ≠ Level.UNSPECIFIED) &&
       decide (r.name = rootName)
   | none => false) &&
  keysNodup m.all &&
  m.all.all fun p =>
    decide (p.1 = rootModuleName) ||
    (match p.2.parent with
     | some pn => (lookupMod m.all pn).isSome && decide (pn.length < p.1.length)
     | none => false)

/-- Well-formedness of a registry state: it holds of every state
reachable through the registry's operations. -/
structure WFmod (m : Modules) : Prop where
  rootLevel_ne : m.rootLevel ≠ Level.UNSPECIFIED
  defaultLevel_eq : m.defaultLevel = Level.UNSPECIFIED
  root_mem : ∃ r, lookupMod m.all rootModuleName = some r ∧ r.parent = none ∧
    r.level ≠ Level.UNSPECIFIED ∧ r.name = rootName
  nodup : keysNodup m.all = true
  parents : ∀ p ∈ m.all, p.1 ≠ rootModuleName →
    ∃ pn, p.2.parent = some pn ∧ (lookupMod m.all pn).isSome ∧ pn.length < p.1.length

/-! ## Helper lemmas about the map model -/

theorem lookupMod_nil (k : Name) : lookupMod [] k = none := rfl

theorem lookupMod_cons (a : Name) (b : LoggerState) (rest : List (Name × LoggerState))
    (k : Name) : lookupMod ((a, b) :: rest) k = if a = k then some b else lookupMod rest k := rfl

theorem lookupMod_mem {l : List (Name × LoggerState)} {k : Name} {v : LoggerState}
    (h : lookupMod l k = some v) : (k, v) ∈ l := by
  induction l with
  | nil => exact absurd h (by rw [lookupMod_nil]; exact Option.noConfusion)
  | cons p rest ih =>
    obtain ⟨a, b⟩ := p
    rw [lookupMod_cons] at h
    by_cases hk : a = k
    · rw [if_pos hk] at h
      obtain rfl := hk
      obtain rfl : b = v := by injection h
      exact List.mem_cons_self _ _
    · rw [if_neg hk] at h
      exact List.mem_cons_of_mem _ (ih h)

theorem mem_lookupMod_of_nodup {l : List (Name × LoggerState)} {k : Name} {v : LoggerState}
    (hnd : keysNodup l = true) (h : (k, v) ∈ l) : lookupMod l k = some v := by
  induction l with
  | nil => exact absurd h (List.not_mem_nil _)
  | cons p rest ih =>
    obtain ⟨a, b⟩ := p
    have hnd0 : (((a, b) :: rest).map Prod.fst).Nodup := of_decide_eq_true hnd
    rw [List.map_cons] at hnd0
    rw [List.nodup_cons] at hnd0
    have hnd' : a ∉ rest.map Prod.fst ∧ keysNodup rest = true :=
      ⟨hnd0.1, decide_eq_true hnd0.2⟩
    rw [lookupMod_cons]
    rcases List.mem_cons.mp h with h1 | h1
    · simp only [Prod.mk.injEq] at h1
      obtain ⟨h1a, h1b⟩ := h1
      subst h1a
      subst h1b
      rw [if_pos rfl]
    · by_cases hk : a = k
      · exfalso
        apply hnd'.1
        obtain rfl := hk
        exact List.mem_map_of_mem Prod.fst h1
      · rw [if_neg hk]
        exact ih hnd'.2 h1

theorem lookupMod_isSome_ne_nil {l : List (Name × LoggerState)} {k : Name}
    (h : (lookupMod l k).isSome) : l ≠ [] := by
  intro he
  subst he
  rw [lookupMod_nil] at h
  exact Bool.noConfusion h

theorem lookupMod_insertMod_self (l : List (Name × LoggerState)) (k : Name) (v : LoggerState) :
    lookupMod (insertMod l k v) k = some v := by
  induction l with
  | nil => rw [insertMod, lookupMod_cons, if_pos rfl]
  | cons p rest ih =>
    obtain ⟨a, b⟩ := p
    by_cases hk : a = k
    · rw [insertMod, if_pos hk, lookupMod_cons, if_pos rfl]
    · rw [insertMod, if_neg hk, lookupMod_cons, if_neg hk]
      exact ih

theorem lookupMod_insertMod_ne (l : List (Name × LoggerState)) (k k' : Name) (v : LoggerState)
    (h : k' ≠ k) : lookupMod (insertMod l k v) k' = lookupMod l k' := by
  have hkk : k ≠ k' := fun he => h he.symm
  induction l with
  | nil => rw [insertMod, lookupMod_cons, if_neg hkk, lookupMod_nil]
  | cons p rest ih =>
    obtain ⟨a, b⟩ := p
    by_cases hk : a = k
    · rw [insertMod, if_pos hk, lookupMod_cons, lookupMod_cons, if_neg hkk]
      obtain rfl := hk
      by_cases hak : a = k'
      · exact absurd hak hkk
      · rw [if_neg hak]
    · rw [insertMod, if_neg hk, lookupMod_cons, lookupMod_cons]
      by_cases hak : a = k'
      · rw [if_pos hak, if_pos hak]
      · rw [if_neg hak, if_neg hak]
        exact ih

theorem updateLevel_nil (x : Name) (lv : Level) : updateLevel [] x lv = [] := rfl

theorem updateLevel_cons (a : Name) (b : LoggerState) (rest : List (Name × LoggerState))
    (x : Name) (lv : Level) :
    updateLevel ((a, b) :: rest) x lv =
      if a = x then (a, { b with level := lv }) :: updateLevel rest x lv
      else (a, b) :: updateLevel rest x lv := rfl

theorem lookupMod_updateLevel_self (l : List (Name × LoggerState)) (x : Name) (lv : Level) :
    lookupMod (updateLevel l x lv) x =
      (lookupMod l x).map (fun s => { s with level := lv }) := by
  induction l with
  | nil => rfl
  | cons p rest ih =>
    obtain ⟨a, b⟩ := p
    by_cases hax : a = x
    · subst hax
      conv_lhs => rw [updateLevel_cons, if_pos rfl, lookupMod_cons, if_pos rfl]
      conv_rhs => rw [lookupMod_cons, if_pos rfl]
      rfl
    · conv_lhs => rw [updateLevel_cons, if_neg hax, lookupMod_cons, if_neg hax]
      conv_rhs => rw [lookupMod_cons, if_neg hax]
      exact ih

theorem lookupMod_updateLevel_ne (l : List (Name × LoggerState)) (x k : Name) (lv : Level)
    (h : k ≠ x) : lookupMod (updateLevel l x lv) k = lookupMod l k := by
  induction l with
  | nil => rfl
  | cons p rest ih =>
    obtain ⟨a, b⟩ := p
    by_cases hax : a = x
    · have hak : ¬ a = k := fun he => h (he.symm.trans hax)
      conv_lhs => rw [updateLevel_cons, if_pos hax, lookupMod_cons, if_neg hak]
      conv_rhs => rw [lookupMod_cons, if_neg hak]
      exact ih
    · by_cases hak : a = k
      · conv_lhs => rw [updateLevel_cons, if_neg hax, lookupMod_cons, if_pos hak]
        conv_rhs => rw [lookupMod_cons, if_pos hak]
      · conv_lhs => rw [updateLevel_cons, if_neg hax, lookupMod_cons, if_neg hak]
        conv_rhs => rw [lookupMod_cons, if_neg hak]
        exact ih

theorem updateLevel_keys (l : List (Name × LoggerState)) (x : Name) (lv : Level) :
    (updateLevel l x lv).map Prod.fst = l.map Prod.fst := by
  induction l with
  | nil => rfl
  | cons p rest ih =>
    obtain ⟨a, b⟩ := p
    by_cases hax : a = x
    · rw [updateLevel_cons, if_pos hax, List.map_cons, List.map_cons, ih]
    · rw [updateLevel_cons, if_neg hax, List.map_cons, List.map_cons, ih]

/-- A name after the root-alias normalization done at the top of
`modules.resolveUnlocked`. -/
def aliasOf (n : Name) : Name := if n = rootName then rootModuleName else n

theorem parentOf_length_lt {n : Name} (h : n ≠ []) : (parentOf n).length < n.length := by
  have hpos : 0 < n.length := List.length_pos.mpr h
  by_cases hc : n.contains '.'
  · have h1 : (parentOf n).length = ((n.reverse.dropWhile (fun c => c ≠ '.')).tail).length := by
      simp only [parentOf, if_pos hc, List.length_reverse]
    have h2 : ((n.reverse.dropWhile (fun c => c ≠ '.')).tail).length =
        (n.reverse.dropWhile (fun c => c ≠ '.')).length - 1 := List.length_tail _
    have h3 : (n.reverse.dropWhile (fun c => c ≠ '.')).length ≤ n.reverse.length :=
      (List.dropWhile_sublist _).length_le
    rw [List.length_reverse] at h3
    omega
  · have h1 : parentOf n = rootModuleName := by simp only [parentOf, if_neg hc]
    rw [h1]
    exact hpos

theorem resolveUnlocked_zero (m : Modules) (n : Name) : resolveUnlocked m 0 n = none := rfl

theorem resolveUnlocked_eq (m : Modules) (fuel : Nat) (name0 : Name) :
    resolveUnlocked m (fuel + 1) name0 =
      (match lookupMod m.all (aliasOf name0) with
       | some _ => some (m, aliasOf name0)
       | none =>
          match resolveUnlocked m fuel (parentOf (aliasOf name0)) with
          | none => none
          | some (m2, parentKey) =>
              some ({ m2 with
                        all := insertMod m2.all (aliasOf name0)
                          (newSubmodule (aliasOf name0) parentKey m.defaultLevel) },
                    aliasOf name0)) := rfl

theorem resolveUnlocked_total (m : Modules)
    (hroot : (lookupMod m.all rootModuleName).isSome) :
    ∀ fuel name, name.length < fuel → (resolveUnlocked m fuel name).isSome := by
  intro fuel
  induction fuel with
  | zero => intro name h; exact absurd h (Nat.not_lt_zero _)
  | succ f ih =>
    intro name h
    rw [resolveUnlocked_eq]
    rcases hk : lookupMod m.all (aliasOf name) with _ | v
    · have hn : ¬ name = rootName := by
        intro he
        have : aliasOf name = rootModuleName := by rw [aliasOf, if_pos he]
        rw [this] at hk
        rw [hk] at hroot
        exact Bool.noConfusion hroot
      have halias : aliasOf name = name := by rw [aliasOf, if_neg hn]
      rw [halias] at hk
      have hne : name ≠ [] := by
        intro he
        rw [show ([] : Name) = rootModuleName from rfl] at he
        rw [he] at hk
        rw [hk] at hroot
        exact Bool.noConfusion hroot
      have hlt : (parentOf name).length < f := by
        have := parentOf_length_lt hne
        omega
      have hrec := ih (parentOf name) hlt
      rcases hr : resolveUnlocked m f (parentOf name) with _ | r
      · rw [hr] at hrec
        exact absurd hrec (by simp)
      · obtain ⟨m2, pk⟩ := r
        rw [halias, hr]
        rfl
    · rfl

theorem resolveUnlocked_mono (m : Modules) :
    ∀ fuel name m2 x, resolveUnlocked m fuel name = some (m2, x) →
      (∀ k v, lookupMod m.all k = some v → lookupMod m2.all k = some v) ∧
      m2.rootLevel = m.rootLevel ∧ m2.defaultLevel = m.defaultLevel := by
  intro fuel
  induction fuel with
  | zero => intro name m2 x h; exact absurd h (by rw [resolveUnlocked_zero]; exact Option.noConfusion)
  | succ f ih =>
    intro name m2 x h
    rw [resolveUnlocked_eq] at h
    rcases hk : lookupMod m.all (aliasOf name) with _ | v
    · rw [hk] at h
      rcases hr : resolveUnlocked m f (parentOf (aliasOf name)) with _ | r
      · rw [hr] at h
        exact absurd h (by simp)
      · obtain ⟨m3, pk⟩ := r
        rw [hr] at h
        simp only [Option.some.injEq, Prod.mk.injEq] at h
        obtain ⟨hm2, hx⟩ := h
        have IH := ih _ _ _ hr
        subst hm2
        refine ⟨?_, IH.2.1, IH.2.2⟩
        intro k v hv
        have hkne : k ≠ aliasOf name := by
          intro he
          rw [he] at hv
          rw [hv] at hk
          exact Option.noConfusion hk
        show lookupMod (insertMod m3.all (aliasOf name) _) k = some v
        rw [lookupMod_insertMod_ne _ _ _ _ hkne]
        exact IH.1 k v hv
    · rw [hk] at h
      simp only [Option.some.injEq, Prod.mk.injEq] at h
      obtain ⟨hm2, hx⟩ := h
      subst hm2
      exact ⟨fun k v hv => hv, rfl, rfl⟩

theorem resolveUnlocked_key (m : Modules) (fuel : Nat) (name0 : Name) (m2 : Modules) (x : Name)
    (h : resolveUnlocked m (fuel + 1) name0 = some (m2, x)) :
    x = aliasOf name0 ∧ (lookupMod m2.all x).isSome := by
  rw [resolveUnlocked_eq] at h
  rcases hk : lookupMod m.all (aliasOf name0) with _ | v
  · rw [hk] at h
    rcases hr : resolveUnlocked m fuel (parentOf (aliasOf name0)) with _ | r
    · rw [hr] at h
      exact absurd h (by simp)
    · obtain ⟨m3, pk⟩ := r
      rw [hr] at h
      simp only [Option.some.injEq, Prod.mk.injEq] at h
      obtain ⟨hm2, hx⟩ := h
      subst hm2
      refine ⟨hx.symm, ?_⟩
      rw [hx.symm] at *
      rw [lookupMod_insertMod_self]
      rfl
  · rw [hk] at h
    simp only [Option.some.injEq, Prod.mk.injEq] at h
    obtain ⟨hm2, hx⟩ := h
    subst hm2
    refine ⟨hx.symm, ?_⟩
    rw [hx.symm, hk]
    rfl

theorem effLevelFuel_zero (all : List (Name × LoggerState)) (n : Name) :
    effLevelFuel all 0 n = Level.UNSPECIFIED := rfl

theorem effLevelFuel_succ (all : List (Name × LoggerState)) (fuel : Nat) (n : Name) :
    effLevelFuel all (fuel + 1) n =
      (match lookupMod all n with
       | none => Level.UNSPECIFIED
       | some node =>
           if node.level = Level.UNSPECIFIED then
             match node.parent with
             | none => Level.UNSPECIFIED
             | some p => effLevelFuel all fuel p
           else node.level) := rfl

theorem chainLevels_succ (all : List (Name × LoggerState)) (fuel : Nat) (n : Name) :
    chainLevels all (fuel + 1) n =
      (match lookupMod all n with
       | none => []
       | some node =>
           node.level ::
             (match node.parent with
              | none => []
              | some p => chainLevels all fuel p)) := rfl

theorem chainNames_succ (all : List (Name × LoggerState)) (fuel : Nat) (n : Name) :
    chainNames all (fuel + 1) n =
      (match lookupMod all n with
       | none => []
       | some node =>
           n ::
             (match node.parent with
              | none => []
              | some p => chainNames all fuel p)) := rfl

theorem effLevelFuel_eq_firstConcrete (all : List (Name × LoggerState)) :
    ∀ fuel n, effLevelFuel all fuel n = firstConcreteLevel (chainLevels all fuel n) := by
  intro fuel
  induction fuel with
  | zero => intro n; rfl
  | succ f ih =>
    intro n
    rw [effLevelFuel_succ, chainLevels_succ]
    rcases hk : lookupMod all n with _ | node
    · rfl
    · dsimp only
      by_cases hlev : node.level = Level.UNSPECIFIED
      · rw [if_pos hlev]
        rcases hp : node.parent with _ | p
        · dsimp only
          rw [hlev]
          simp [firstConcreteLevel, List.find?]
        · dsimp only
          rw [ih p, hlev]
          simp [firstConcreteLevel, List.find?]
      · rw [if_neg hlev]
        simp [firstConcreteLevel, List.find?, hlev]

theorem chainNames_length_le {m : Modules} (hm : WFmod m) :
    ∀ fuel a n, n ∈ chainNames m.all fuel a → n.length ≤ a.length := by
  intro fuel
  induction fuel with
  | zero => intro a n hn; exact absurd hn (List.not_mem_nil _)
  | succ f ih =>
    intro a n hn
    rcases hk : lookupMod m.all a with _ | node
    · rw [chainNames_succ, hk] at hn
      exact absurd hn (List.not_mem_nil _)
    · rw [chainNames_succ, hk] at hn
      dsimp only at hn
      rcases List.mem_cons.mp hn with h1 | h1
      · exact h1 ▸ Nat.le_refl _
      · rcases hp : node.parent with _ | p
        · rw [hp] at h1
          exact absurd h1 (List.not_mem_nil _)
        · rw [hp] at h1
          dsimp only at h1
          by_cases ha : a = rootModuleName
          · exfalso
            obtain ⟨r, hr, hrp, _, _⟩ := hm.root_mem
            rw [ha] at hk
            rw [hk] at hr
            obtain rfl : node = r := by injection hr
            rw [hrp] at hp
            exact Option.noConfusion hp
          · obtain ⟨pn, hpn, _, hplen⟩ := hm.parents (a, node) (lookupMod_mem hk) ha
            rw [hpn] at hp
            have heq : pn = p := by injection hp
            rw [heq] at hplen
            dsimp only at hplen
            have := ih p n h1
            omega

theorem effLevelFuel_updateLevel_of_ne (all : List (Name × LoggerState)) (x : Name) (lv : Level) :
    ∀ fuel a, (∀ n ∈ chainNames all fuel a, n ≠ x) →
      effLevelFuel (updateLevel all x lv) fuel a = effLevelFuel all fuel a := by
  intro fuel
  induction fuel with
  | zero => intro a _; rfl
  | succ f ih =>
    intro a hchain
    rw [effLevelFuel_succ, effLevelFuel_succ]
    rcases hk : lookupMod all a with _ | node
    · have hupd : lookupMod (updateLevel all x lv) a = none := by
        by_cases hax : a = x
        · rw [hax, lookupMod_updateLevel_self]
          rw [hax] at hk
          rw [hk]
          rfl
        · rw [lookupMod_updateLevel_ne _ _ _ _ hax, hk]
      rw [hupd]
    · have hax : a ≠ x := by
        apply hchain
        rw [chainNames_succ, hk]
        exact List.mem_cons_self _ _
      have hupd : lookupMod (updateLevel all x lv) a = some node := by
        rw [lookupMod_updateLevel_ne _ _ _ _ hax, hk]
      rw [hupd]
      dsimp only
      by_cases hlev : node.level = Level.UNSPECIFIED
      · rw [if_pos hlev, if_pos hlev]
        rcases hp : node.parent with _ | p
        · rfl
        · dsimp only
          apply ih
          intro n hn
          apply hchain
          rw [chainNames_succ, hk]
          apply List.mem_cons_of_mem
          rw [hp]
          exact hn
      · rw [if_neg hlev, if_neg hlev]

theorem WFmod_of_bool {m : Modules} (h : WFmodb m = true) : WFmod m := by
  simp only [WFmodb, Bool.and_eq_true, decide_eq_true_eq, List.all_eq_true,
    Bool.or_eq_true] at h
  obtain ⟨⟨⟨⟨h1, h2⟩, h3⟩, h4⟩, h5⟩ := h
  refine ⟨h1, h2, ?_, h4, ?_⟩
  · rcases hr : lookupMod m.all rootModuleName with _ | r
    · rw [hr] at h3
      exact absurd h3 Bool.noConfusion
    · rw [hr] at h3
      simp only [Bool.and_eq_true, decide_eq_true_eq] at h3
      exact ⟨r, rfl, h3.1.1, h3.1.2, h3.2⟩
  · intro p hp hp1
    rcases h5 p hp with h6 | h6
    · exact absurd h6 hp1
    · rcases hpp : p.2.parent with _ | pn
      · rw [hpp] at h6
        exact absurd h6 Bool.noConfusion
      · rw [hpp] at h6
        simp only [Bool.and_eq_true, decide_eq_true_eq] at h6
        exact ⟨pn, rfl, h6.1, h6.2⟩

/-- Decidable check of the root-module invariant, for concrete states. -/
def RootInvb (m : Modules) : Bool :=
  decide (m.rootLevel ≠ Level.UNSPECIFIED) &&
  (match lookupMod m.all rootModuleName with
   | some r => decide (r.level ≠ Level.UNSPECIFIED)
   | none => false)

theorem RootInv_of_bool {m : Modules} (h : RootInvb m = true) : RootInv m := by
  simp only [RootInvb, Bool.and_eq_true, decide_eq_true_eq] at h
  obtain ⟨h1, h2⟩ := h
  refine ⟨h1, ?_⟩
  rcases hr : lookupMod m.all rootModuleName with _ | r
  · rw [hr] at h2
    exact absurd h2 Bool.noConfusion
  · rw [hr] at h2
    simp only [decide_eq_true_eq] at h2
    exact ⟨r, rfl, h2⟩

theorem RootInv_of_WF {m : Modules} (hm : WFmod m) : RootInv m := by
  obtain ⟨r, hr, _, hrl, _⟩ := hm.root_mem
  exact ⟨hm.rootLevel_ne, r, hr, hrl⟩

theorem maybeInitUnlocked_of_ne_nil {m : Modules} (h : m.all ≠ []) :
    maybeInitUnlocked m = m := by
  rw [maybeInitUnlocked, if_neg h]

theorem lookupMod_resetList (rl dl : Level) :
    ∀ (l : List (Name × LoggerState)) (k : Name),
      lookupMod (l.map fun p =>
          if p.1 = rootModuleName then (p.1, { p.2 with level := rl })
          else (p.1, { p.2 with level := dl })) k
        = (lookupMod l k).map fun s =>
            { s with level := if k = rootModuleName then rl else dl } := by
  intro l
  induction l with
  | nil => intro k; rfl
  | cons p rest ih =>
    intro k
    obtain ⟨a, b⟩ := p
    rw [List.map_cons]
    dsimp only
    by_cases ha : a = rootModuleName
    · rw [if_pos ha]
      by_cases hak : a = k
      · conv_lhs => rw [lookupMod_cons, if_pos hak]
        conv_rhs => rw [lookupMod_cons, if_pos hak]
        have hk : k = rootModuleName := hak ▸ ha
        rw [Option.map_some', if_pos hk]
      · conv_lhs => rw [lookupMod_cons, if_neg hak]
        conv_rhs => rw [lookupMod_cons, if_neg hak]
        exact ih k
    · rw [if_neg ha]
      by_cases hak : a = k
      · conv_lhs => rw [lookupMod_cons, if_pos hak]
        conv_rhs => rw [lookupMod_cons, if_pos hak]
        have hk : ¬ k = rootModuleName := fun he => ha ((hak.trans he))
        rw [Option.map_some', if_neg hk]
      · conv_lhs => rw [lookupMod_cons, if_neg hak]
        conv_rhs => rw [lookupMod_cons, if_neg hak]
        exact ih k

theorem resetList_keys (rl dl : Level) (l : List (Name × LoggerState)) :
    (l.map fun p =>
        if p.1 = rootModuleName then (p.1, { p.2 with level := rl })
        else (p.1, { p.2 with level := dl })).map Prod.fst = l.map Prod.fst := by
  rw [List.map_map]
  apply List.map_congr_left
  intro p _
  by_cases ha : p.1 = rootModuleName
  · simp [Function.comp, ha]
  · simp [Function.comp, ha]

theorem configList_nil : configList [] = [] := rfl

theorem configList_cons (a : Name) (b : LoggerState) (rest : List (Name × LoggerState)) :
    configList ((a, b) :: rest) =
      if b.level = Level.UNSPECIFIED then configList rest
      else (b.name, b.level) :: configList rest := by
  by_cases h : b.level = Level.UNSPECIFIED
  · rw [if_pos h]
    simp [configList, moduleMinLogLevel, moduleConfig, List.filter_cons, h]
  · rw [if_neg h]
    simp [configList, moduleMinLogLevel, moduleConfig, List.filter_cons, h]

theorem configList_reset_of_no_root (rl : Level) :
    ∀ l : List (Name × LoggerState), (∀ p ∈ l, p.1 ≠ rootModuleName) →
      configList (l.map fun p =>
          if p.1 = rootModuleName then (p.1, { p.2 with level := rl })
          else (p.1, { p.2 with level := Level.UNSPECIFIED })) = [] := by
  intro l
  induction l with
  | nil => intro _; rfl
  | cons p rest ih =>
    intro hn
    obtain ⟨a, b⟩ := p
    rw [List.map_cons]
    dsimp only
    have ha : ¬ a = rootModuleName := hn (a, b) (List.mem_cons_self _ _)
    rw [if_neg ha, configList_cons, if_pos rfl]
    exact ih fun q hq => hn q (List.mem_cons_of_mem _ hq)

theorem configList_resetList (rl dl : Level) (hrl : rl ≠ Level.UNSPECIFIED)
    (hdl : dl = Level.UNSPECIFIED) :
    ∀ l : List (Name × LoggerState), keysNodup l = true →
      (∀ p ∈ l, p.1 = rootModuleName → p.2.name = rootName) →
      configList (l.map fun p =>
          if p.1 = rootModuleName then (p.1, { p.2 with level := rl })
          else (p.1, { p.2 with level := dl })) =
        if (lookupMod l rootModuleName).isSome then [(rootName, rl)] else [] := by
  subst hdl
  intro l
  induction l with
  | nil => intro _ _; rfl
  | cons p rest ih =>
    intro hnd hname
    obtain ⟨a, b⟩ := p
    have hnd0 : (((a, b) :: rest).map Prod.fst).Nodup := of_decide_eq_true hnd
    rw [List.map_cons] at hnd0
    rw [List.nodup_cons] at hnd0
    rw [List.map_cons]
    dsimp only
    by_cases ha : a = rootModuleName
    · rw [if_pos ha, configList_cons, if_neg hrl]
      have hbn : b.name = rootName := hname (a, b) (List.mem_cons_self _ _) ha
      have hrest : ∀ q ∈ rest, q.1 ≠ rootModuleName := by
        intro q hq he
        apply hnd0.1
        rw [ha, ← he]
        have hmem : Prod.fst q ∈ rest.map Prod.fst := List.mem_map_of_mem Prod.fst hq
        exact hmem
      rw [configList_reset_of_no_root rl rest hrest]
      conv_rhs => rw [lookupMod_cons, if_pos ha]
      rw [hbn]
      rfl
    · rw [if_neg ha, configList_cons, if_pos rfl]
      conv_rhs => rw [lookupMod_cons, if_neg ha]
      exact ih (decide_eq_true hnd0.2) fun q hq => hname q (List.mem_cons_of_mem _ hq)

/-! ## Helper lemmas about the tee writer -/

theorem combineLoop_nil (acc : Level) : combineLoop acc [] = acc := rfl

theorem combineLoop_cons_plain (acc : Level) (i : Nat) (ws : List TeeSink) :
    combineLoop acc (TeeSink.plain i :: ws) = Level.UNSPECIFIED := rfl

theorem combineLoop_cons_leveled (acc ml : Level) (i : Nat) (ws : List TeeSink) :
    combineLoop acc (TeeSink.leveled ml i :: ws) =
      combineLoop (if ml.toNat < acc.toNat then ml else acc) ws := rfl

theorem Level.toNat_le_critical (l : Level) : l.toNat ≤ Level.CRITICAL.toNat := by
  cases l <;> decide

theorem Level.toNat_inj (a b : Level) (h : a.toNat = b.toNat) : a = b := by
  cases a <;> cases b <;> first | rfl | exact absurd h (by decide)

theorem combineLoop_le (ws : List TeeSink) :
    ∀ acc, (∀ w ∈ ws, (TeeSink.floor? w).isSome) →
      (combineLoop acc ws).toNat ≤ acc.toNat ∧
      ∀ f ∈ ws.filterMap TeeSink.floor?, (combineLoop acc ws).toNat ≤ f.toNat := by
  induction ws with
  | nil =>
    intro acc _
    refine ⟨Nat.le_refl _, ?_⟩
    intro f hf
    exact absurd hf (by simp)
  | cons w ws ih =>
    intro acc hall
    cases w with
    | plain i =>
      exact absurd (hall _ (List.mem_cons_self _ _)) (by simp [TeeSink.floor?])
    | leveled ml i =>
      have htail : ∀ w ∈ ws, (TeeSink.floor? w).isSome :=
        fun w hw => hall w (List.mem_cons_of_mem _ hw)
      obtain ⟨hle, hfl⟩ := ih (if ml.toNat < acc.toNat then ml else acc) htail
      have hacc' : (if ml.toNat < acc.toNat then ml else acc).toNat ≤ acc.toNat ∧
          (if ml.toNat < acc.toNat then ml else acc).toNat ≤ ml.toNat := by
        by_cases hml : ml.toNat < acc.toNat
        · rw [if_pos hml]
          omega
        · rw [if_neg hml]
          omega
      rw [combineLoop_cons_leveled]
      constructor
      · exact Nat.le_trans hle hacc'.1
      · intro f hf
        have hfm : List.filterMap TeeSink.floor? (TeeSink.leveled ml i :: ws) =
            ml :: List.filterMap TeeSink.floor? ws := by
          rw [List.filterMap_cons_some]
          rfl
        rw [hfm] at hf
        rcases List.mem_cons.mp hf with h1 | h1
        · rw [h1]
          exact Nat.le_trans hle hacc'.2
        · exact hfl f h1

theorem combineLoop_mem (ws : List TeeSink) :
    ∀ acc, (∀ w ∈ ws, (TeeSink.floor? w).isSome) →
      combineLoop acc ws = acc ∨ combineLoop acc ws ∈ ws.filterMap TeeSink.floor? := by
  induction ws with
  | nil => intro acc _; exact Or.inl rfl
  | cons w ws ih =>
    intro acc hall
    cases w with
    | plain i =>
      exact absurd (hall _ (List.mem_cons_self _ _)) (by simp [TeeSink.floor?])
    | leveled ml i =>
      have htail : ∀ w ∈ ws, (TeeSink.floor? w).isSome :=
        fun w hw => hall w (List.mem_cons_of_mem _ hw)
      have hfm : List.filterMap TeeSink.floor? (TeeSink.leveled ml i :: ws) =
          ml :: List.filterMap TeeSink.floor? ws := by
        rw [List.filterMap_cons_some]
        rfl
      rw [combineLoop_cons_leveled, hfm]
      by_cases hml : ml.toNat < acc.toNat
      · rw [if_pos hml]
        rcases ih ml htail with h1 | h1
        · exact Or.inr (by rw [h1]; exact List.mem_cons_self _ _)
        · exact Or.inr (List.mem_cons_of_mem _ h1)
      · rw [if_neg hml]
        rcases ih acc htail with h1 | h1
        · exact Or.inl h1
        · exact Or.inr (List.mem_cons_of_mem _ h1)

theorem combineLoop_plain_mem (ws : List TeeSink) :
    ∀ acc, (∃ w ∈ ws, TeeSink.floor? w = none) →
      combineLoop acc ws = Level.UNSPECIFIED := by
  induction ws with
  | nil =>
    intro acc h
    obtain ⟨w, hw, _⟩ := h
    exact absurd hw (List.not_mem_nil _)
  | cons w ws ih =>
    intro acc h
    cases w with
    | plain i => exact combineLoop_cons_plain _ _ _
    | leveled ml i =>
      rw [combineLoop_cons_leveled]
      apply ih
      obtain ⟨w2, hw2, hw2f⟩ := h
      rcases List.mem_cons.mp hw2 with h1 | h1
      · rw [h1] at hw2f
        exact absurd hw2f (by simp [TeeSink.floor?])
      · exact ⟨w2, h1, hw2f⟩

theorem setLogLevel_all (m : Modules) (x : Name) (l : Level) :
    (setLogLevel m x l).all =
      updateLevel m.all x
        (if x = rootModuleName ∧ l = Level.UNSPECIFIED then m.rootLevel else l) := rfl

theorem setLogLevel_rootLevel (m : Modules) (x : Name) (l : Level) :
    (setLogLevel m x l).rootLevel = m.rootLevel := rfl

theorem resetLevels_all (m : Modules) :
    (resetLevels m).all =
      m.all.map fun p =>
        if p.1 = rootModuleName then (p.1, { p.2 with level := m.rootLevel })
        else (p.1, { p.2 with level := m.defaultLevel }) := rfl

theorem resetLevels_rootLevel (m : Modules) : (resetLevels m).rootLevel = m.rootLevel := rfl

theorem modulesConfig_fst (m : Modules) : (modulesConfig m).1 = maybeInitUnlocked m := rfl

theorem modulesConfig_snd (m : Modules) :
    (modulesConfig m).2 = configList (maybeInitUnlocked m).all := rfl

/-! ## Concrete sample names and states used to instantiate the theorems -/

def aN : Name := 'a' :: []

def abN : Name := 'a' :: '.' :: 'b' :: []

def abcN : Name := 'a' :: '.' :: 'b' :: '.' :: 'c' :: []

/-- The registry state reached from `newModules WARNING` by registering
the logger "a.b.c" (checked below by evaluation). -/
def mABC : Modules :=
  { rootLevel := Level.WARNING
    defaultLevel := Level.UNSPECIFIED
    all := [(rootModuleName,
             { name := rootName, level := Level.WARNING,
               defaultLevel := Level.WARNING, parent := none }),
            (aN, { name := aN, level := Level.UNSPECIFIED,
                   defaultLevel := Level.UNSPECIFIED, parent := some rootModuleName }),
            (abN, { name := abN, level := Level.UNSPECIFIED,
                    defaultLevel := Level.UNSPECIFIED, parent := some aN }),
            (abcN, { name := abcN, level := Level.UNSPECIFIED,
                     defaultLevel := Level.UNSPECIFIED, parent := some abN })] }

/-! ## The claims -/

/-- Claim C5, counterexample: the claim says lower numeric value means
higher severity, with CRITICAL numerically smallest in the comparison
used for filtering. In fact WARNING, which is more severe than INFO, has
the larger numeric value; CRITICAL is not numerically below INFO; and in
the filtering comparison an INFO floor admits CRITICAL while a CRITICAL
floor rejects INFO — so CRITICAL is the numerically largest value, not
the smallest. -/
theorem C5_counterexample :
    Level.toNat Level.INFO < Level.toNat Level.WARNING ∧
    ¬ Level.toNat Level.CRITICAL ≤ Level.toNat Level.INFO ∧
    IsLevelEnabled Level.INFO Level.CRITICAL = true ∧
    IsLevelEnabled Level.CRITICAL Level.INFO = false := by decide

/-- Claim C5 (amended): the six concrete severity levels are totally
ordered numerically with lower numeric value meaning LOWER severity
(UNSPECIFIED sits below them all), so that CRITICAL is the numerically
LARGEST value in the comparison used for filtering decisions: every
floor admits CRITICAL, and a CRITICAL floor admits only CRITICAL. -/
theorem C5_amended_numeric_order :
    (∀ a b : Level, a = b ↔ a.toNat = b.toNat) ∧
    Level.UNSPECIFIED.toNat < Level.TRACE.toNat ∧
    Level.TRACE.toNat < Level.DEBUG.toNat ∧
    Level.DEBUG.toNat < Level.INFO.toNat ∧
    Level.INFO.toNat < Level.WARNING.toNat ∧
    Level.WARNING.toNat < Level.ERROR.toNat ∧
    Level.ERROR.toNat < Level.CRITICAL.toNat ∧
    (∀ l : Level, l.toNat ≤ Level.CRITICAL.toNat) ∧
    (∀ l : Level, IsLevelEnabled l Level.CRITICAL = true) ∧
    (∀ l : Level, IsLevelEnabled Level.CRITICAL l = true ↔ l = Level.CRITICAL) :=
  ⟨fun a b => by cases a <;> cases b <;> decide,
   by decide, by decide, by decide, by decide, by decide, by decide,
   fun l => by cases l <;> decide,
   fun l => by cases l <;> decide,
   fun l => by cases l <;> decide⟩

/-- Claim C9: the stream-split writer routes every record whose level is
INFO or numerically below to the out sink, and every record whose level
is numerically above INFO (WARNING, ERROR, CRITICAL) to the err sink;
the routing picks exactly one of the two sinks. -/
theorem C9_stdio_routing :
    ∀ rec : Record,
      (stdioWriteRecord rec = StdioTarget.out ↔ rec.level.toNat ≤ Level.INFO.toNat) ∧
      (stdioWriteRecord rec = StdioTarget.err ↔ Level.INFO.toNat < rec.level.toNat) ∧
      stdioWriteRecord { rec with level := Level.TRACE } = StdioTarget.out ∧
      stdioWriteRecord { rec with level := Level.DEBUG } = StdioTarget.out ∧
      stdioWriteRecord { rec with level := Level.INFO } = StdioTarget.out ∧
      stdioWriteRecord { rec with level := Level.WARNING } = StdioTarget.err ∧
      stdioWriteRecord { rec with level := Level.ERROR } = StdioTarget.err ∧
      stdioWriteRecord { rec with level := Level.CRITICAL } = StdioTarget.err ∧
      ¬ (stdioWriteRecord rec = StdioTarget.out ∧ stdioWriteRecord rec = StdioTarget.err) := by
  intro rec
  obtain ⟨l, mo, fn, ln, ts, ms⟩ := rec
  cases l <;> simp [stdioWriteRecord, Level.toNat]

/-- Claim C10: a tee writer over an empty list of sinks keeps the
UNSPECIFIED minimum level assigned before the loop (the CRITICAL seed is
never stored), and writing any record to it delivers to no sink. -/
theorem C10_empty_tee :
    NewTeeWriterLevel [] = Level.UNSPECIFIED ∧
    Level.UNSPECIFIED ≠ Level.CRITICAL ∧
    ∀ l : Level, teeWrite [] l = [] :=
  ⟨rfl, by decide, fun _ => rfl⟩

/-- Claim C3: for a nonempty tee whose wrapped sinks all expose floors,
the combined minimum level computed at construction is one of those
floors and is numerically least among them; if any wrapped sink exposes
no floor, the combined level degrades to UNSPECIFIED. In particular
floors WARNING and INFO combine to INFO, and a single opaque sink gives
UNSPECIFIED. -/
theorem C3_tee_combined_floor :
    (∀ ws : List TeeSink, ws ≠ [] → (∀ w ∈ ws, (TeeSink.floor? w).isSome) →
      NewTeeWriterLevel ws ∈ ws.filterMap TeeSink.floor? ∧
      ∀ f ∈ ws.filterMap TeeSink.floor?, (NewTeeWriterLevel ws).toNat ≤ f.toNat) ∧
    (∀ ws : List TeeSink, (∃ w ∈ ws, TeeSink.floor? w = none) →
      NewTeeWriterLevel ws = Level.UNSPECIFIED) ∧
    NewTeeWriterLevel [TeeSink.leveled Level.WARNING 0, TeeSink.leveled Level.INFO 1] =
      Level.INFO ∧
    NewTeeWriterLevel [TeeSink.plain 0] = Level.UNSPECIFIED := by
  refine ⟨?_, ?_, by decide, by decide⟩
  · intro ws hne hall
    have hlvl : NewTeeWriterLevel ws = combineLoop Level.CRITICAL ws := by
      rw [NewTeeWriterLevel, if_neg]
      intro hcontra
      exact hne (List.isEmpty_iff.mp hcontra)
    obtain ⟨hle, hfl⟩ := combineLoop_le ws Level.CRITICAL hall
    constructor
    · rcases combineLoop_mem ws Level.CRITICAL hall with h1 | h1
      · obtain ⟨w0, ws', rfl⟩ := List.exists_cons_of_ne_nil hne
        have hw0 := hall w0 (List.mem_cons_self _ _)
        rcases hf0 : TeeSink.floor? w0 with _ | f0
        · rw [hf0] at hw0
          exact absurd hw0 (by simp)
        · have hfm : (w0 :: ws').filterMap TeeSink.floor? =
              f0 :: ws'.filterMap TeeSink.floor? := List.filterMap_cons_some hf0
          have hf0mem : f0 ∈ (w0 :: ws').filterMap TeeSink.floor? := by
            rw [hfm]
            exact List.mem_cons_self _ _
          have hb := hfl f0 hf0mem
          rw [h1] at hb
          have hcrit := Level.toNat_le_critical f0
          have hf0c : f0 = Level.CRITICAL :=
            Level.toNat_inj _ _ (Nat.le_antisymm hcrit hb)
          rw [hlvl, h1, ← hf0c]
          exact hf0mem
      · rw [hlvl]
        exact h1
    · intro f hf
      rw [hlvl]
      exact hfl f hf
  · intro ws hex
    have hne : ws ≠ [] := by
      obtain ⟨w, hw, _⟩ := hex
      intro he
      rw [he] at hw
      exact List.not_mem_nil _ hw
    rw [NewTeeWriterLevel, if_neg]
    · exact combineLoop_plain_mem ws Level.CRITICAL hex
    · intro hcontra
      exact hne (List.isEmpty_iff.mp hcontra)

/-- Witness for claim C3 at the concrete tee over floors WARNING and
INFO. -/
theorem C3_witness :
    NewTeeWriterLevel [TeeSink.leveled Level.WARNING 0, TeeSink.leveled Level.INFO 1] ∈
      [TeeSink.leveled Level.WARNING 0,
       TeeSink.leveled Level.INFO 1].filterMap TeeSink.floor? ∧
    ∀ f ∈ [TeeSink.leveled Level.WARNING 0,
           TeeSink.leveled Level.INFO 1].filterMap TeeSink.floor?,
      (NewTeeWriterLevel [TeeSink.leveled Level.WARNING 0,
        TeeSink.leveled Level.INFO 1]).toNat ≤ f.toNat :=
  C3_tee_combined_floor.1
    [TeeSink.leveled Level.WARNING 0, TeeSink.leveled Level.INFO 1]
    (by decide) (by decide)

/-- Claim C4, evaluation of the code at the failing input: a tee over a
single opaque sink reports the accept-everything floor UNSPECIFIED (so
every record is enabled for it), yet `TeeWriter.Write` skips the opaque
sink and delivers the record to no one — the claim says a sink with no
exposed floor receives every record. The registration-order examples of
the claim do hold. -/
theorem C4_opaque_sink_skipped :
    NewTeeWriterLevel [TeeSink.plain 7] = Level.UNSPECIFIED ∧
    (∀ l : Level, IsLevelEnabled (NewTeeWriterLevel [TeeSink.plain 7]) l = true) ∧
    (∀ l : Level, teeWrite [TeeSink.plain 7] l = []) ∧
    teeWrite [TeeSink.leveled Level.WARNING 0, TeeSink.leveled Level.UNSPECIFIED 1]
        Level.ERROR =
      [TeeSink.leveled Level.WARNING 0, TeeSink.leveled Level.UNSPECIFIED 1] ∧
    teeWrite [TeeSink.leveled Level.WARNING 0, TeeSink.leveled Level.UNSPECIFIED 1]
        Level.DEBUG =
      [TeeSink.leveled Level.UNSPECIFIED 1] :=
  ⟨rfl, fun l => by cases l <;> decide, fun _ => rfl, by decide, by decide⟩

/-- Claim C7: `get` is idempotent — a second `get` with the same name
returns the same node (the same key, modelling the same pointer) and
leaves the registry unchanged, creating no new nodes. -/
theorem C7_get_idempotent :
    ∀ (m : Modules) (name : Name) (m2 : Modules) (x : Name),
      modulesGet m name = some (m2, x) → modulesGet m2 name = some (m2, x) := by
  intro m name m2 x h
  have h' : resolveUnlocked (maybeInitUnlocked m) ((toLowerName name).length + 1)
      (toLowerName name) = some (m2, x) := h
  obtain ⟨hx, hsome⟩ := resolveUnlocked_key _ _ _ _ _ h'
  have hne : m2.all ≠ [] := lookupMod_isSome_ne_nil hsome
  show resolveUnlocked (maybeInitUnlocked m2) ((toLowerName name).length + 1)
      (toLowerName name) = some (m2, x)
  rw [maybeInitUnlocked_of_ne_nil hne, resolveUnlocked_eq, ← hx]
  rcases hv : lookupMod m2.all x with _ | v
  · rw [hv] at hsome
    exact Bool.noConfusion hsome
  · rfl

/-- Witness for claim C7: registering "a.b.c" on a fresh registry and
asking again returns the same node and the same registry. -/
theorem C7_witness : modulesGet mABC abcN = some (mABC, abcN) :=
  C7_get_idempotent (newModules Level.WARNING) abcN mABC abcN (by decide)

/-- Claim C8: the root node's own level is never UNSPECIFIED — it is
concrete after `newModules` and after the lazy initialization of a
zero-valued registry, and `get`, `setLogLevel` (which replaces
UNSPECIFIED by the configured root level when aimed at the root),
`resetLevels` and `config` all preserve the invariant. -/
theorem C8_root_level_invariant :
    (∀ rl : Level, RootInv (newModules rl)) ∧
    RootInv (maybeInitUnlocked zeroModules) ∧
    (∀ (m : Modules) (name : Name) (m2 : Modules) (x : Name),
      RootInv m → modulesGet m name = some (m2, x) → RootInv m2) ∧
    (∀ (name : Name) (m2 : Modules) (x : Name),
      modulesGet zeroModules name = some (m2, x) → RootInv m2) ∧
    (∀ (m : Modules) (x : Name) (l : Level), RootInv m → RootInv (setLogLevel m x l)) ∧
    (∀ m : Modules, RootInv m → RootInv (resetLevels m)) ∧
    (∀ m : Modules, RootInv m → RootInv (modulesConfig m).1) ∧
    (∀ m : Modules, RootInv m →
      (lookupMod (setLogLevel m rootModuleName Level.UNSPECIFIED).all rootModuleName).map
        LoggerState.level = some m.rootLevel) := by
  refine ⟨?_, RootInv_of_bool (by decide), ?_, ?_, ?_, ?_, ?_, ?_⟩
  · intro rl
    by_cases hrl : rl = Level.UNSPECIFIED
    · subst hrl
      exact RootInv_of_bool (by decide)
    · refine ⟨?_, { newRootModule with level := if rl = Level.UNSPECIFIED then defaultRootLevel else rl }, ?_, ?_⟩
      · show (if rl = Level.UNSPECIFIED then defaultRootLevel else rl) ≠ Level.UNSPECIFIED
        rw [if_neg hrl]
        exact hrl
      · rfl
      · show (if rl = Level.UNSPECIFIED then defaultRootLevel else rl) ≠ Level.UNSPECIFIED
        rw [if_neg hrl]
        exact hrl
  · intro m name m2 x hri h
    obtain ⟨hrl, r, hr, hrlvl⟩ := hri
    have hne : m.all ≠ [] := lookupMod_isSome_ne_nil (by rw [hr]; rfl)
    have h' : resolveUnlocked (maybeInitUnlocked m) ((toLowerName name).length + 1)
        (toLowerName name) = some (m2, x) := h
    rw [maybeInitUnlocked_of_ne_nil hne] at h'
    obtain ⟨hmono, hrootlvl, _⟩ := resolveUnlocked_mono m _ _ _ _ h'
    exact ⟨by rw [hrootlvl]; exact hrl, r, hmono _ _ hr, hrlvl⟩
  · intro name m2 x h
    obtain ⟨hrl, r, hr, hrlvl⟩ := RootInv_of_bool
      (show RootInvb (maybeInitUnlocked zeroModules) = true by decide)
    have h' : resolveUnlocked (maybeInitUnlocked zeroModules)
        ((toLowerName name).length + 1) (toLowerName name) = some (m2, x) := h
    obtain ⟨hmono, hrootlvl, _⟩ := resolveUnlocked_mono (maybeInitUnlocked zeroModules) _ _ _ _ h'
    exact ⟨by rw [hrootlvl]; exact hrl, r, hmono _ _ hr, hrlvl⟩
  · intro m x l hri
    obtain ⟨hrl, r, hr, hrlvl⟩ := hri
    refine ⟨hrl, ?_⟩
    by_cases hx : x = rootModuleName
    · subst hx
      rw [setLogLevel_all]
      rw [lookupMod_updateLevel_self, hr, Option.map_some']
      by_cases hl : l = Level.UNSPECIFIED
      · rw [if_pos ⟨rfl, hl⟩]
        exact ⟨_, rfl, hrl⟩
      · rw [if_neg (fun hc => hl hc.2)]
        exact ⟨_, rfl, hl⟩
    · rw [setLogLevel_all]
      rw [lookupMod_updateLevel_ne _ _ _ _ (fun he => hx he.symm)]
      exact ⟨r, hr, hrlvl⟩
  · intro m hri
    obtain ⟨hrl, r, hr, hrlvl⟩ := hri
    refine ⟨hrl, ?_⟩
    rw [resetLevels_all, lookupMod_resetList, hr, Option.map_some']
    refine ⟨_, rfl, ?_⟩
    show { r with level := if rootModuleName = rootModuleName then m.rootLevel
             else m.defaultLevel }.level ≠ Level.UNSPECIFIED
    rw [if_pos rfl]
    exact hrl
  · intro m hri
    obtain ⟨hrl, r, hr, hrlvl⟩ := hri
    rw [modulesConfig_fst,
      maybeInitUnlocked_of_ne_nil (lookupMod_isSome_ne_nil (by rw [hr]; rfl))]
    exact ⟨hrl, r, hr, hrlvl⟩
  · intro m hri
    obtain ⟨hrl, r, hr, hrlvl⟩ := hri
    rw [setLogLevel_all, lookupMod_updateLevel_self, hr, Option.map_some',
      if_pos ⟨rfl, rfl⟩, Option.map_some']

/-- Witness for claim C8: the invariant transported through a concrete
`get` call on a fresh registry. -/
theorem C8_witness : RootInv mABC :=
  C8_root_level_invariant.2.2.1 (newModules Level.WARNING) abcN mABC abcN
    (RootInv_of_bool (by decide)) (by decide)

/-- Claim C1: the effective level of any key is the first concrete level
along the own-level chain walked through parent links; after setting a
node's level to a concrete value L, its effective level is exactly L
whatever its ancestors hold, and every proper ancestor keeps both its own
level and its effective level. -/
theorem C1_effective_level_after_set :
    ∀ (m : Modules) (x : Name) (L : Level) (s : LoggerState),
      WFmod m → lookupMod m.all x = some s → L ≠ Level.UNSPECIFIED →
      (∀ y : Name, effectiveLogLevel m y =
        firstConcreteLevel (chainLevels m.all (y.length + 1) y)) ∧
      effectiveLogLevel (setLogLevel m x L) x = L ∧
      (∀ a ∈ (chainNames m.all (x.length + 1) x).tail,
        lookupMod (setLogLevel m x L).all a = lookupMod m.all a ∧
        effectiveLogLevel (setLogLevel m x L) a = effectiveLogLevel m a) := by
  intro m x L s hm hs hL
  have hl' : (if x = rootModuleName ∧ L = Level.UNSPECIFIED then m.rootLevel else L) = L := by
    rw [if_neg]
    rintro ⟨_, h2⟩
    exact hL h2
  refine ⟨?_, ?_, ?_⟩
  · intro y
    exact effLevelFuel_eq_firstConcrete m.all _ y
  · show effLevelFuel (setLogLevel m x L).all (x.length + 1) x = L
    rw [setLogLevel_all, hl']
    have hupd : lookupMod (updateLevel m.all x L) x = some { s with level := L } := by
      rw [lookupMod_updateLevel_self, hs]
      rfl
    rw [effLevelFuel_succ, hupd]
    dsimp only
    rw [if_neg hL]
  · intro a ha
    have halen : a.length < x.length := by
      rw [chainNames_succ, hs] at ha
      dsimp only at ha
      rw [List.tail_cons] at ha
      rcases hp : s.parent with _ | pn
      · rw [hp] at ha
        exact absurd ha (List.not_mem_nil _)
      · rw [hp] at ha
        by_cases hx : x = rootModuleName
        · exfalso
          obtain ⟨r, hr, hrp, _, _⟩ := hm.root_mem
          rw [hx] at hs
          rw [hs] at hr
          obtain rfl : s = r := by injection hr
          rw [hrp] at hp
          exact Option.noConfusion hp
        · obtain ⟨pn2, hpn2, _, hplen⟩ := hm.parents (x, s) (lookupMod_mem hs) hx
          rw [hpn2] at hp
          have heq : pn2 = pn := by injection hp
          rw [heq] at hplen
          dsimp only at hplen
          have := chainNames_length_le hm x.length pn a ha
          omega
    have hax : a ≠ x := by
      intro he
      rw [he] at halen
      exact Nat.lt_irrefl _ halen
    constructor
    · rw [setLogLevel_all, hl']
      exact lookupMod_updateLevel_ne _ _ _ _ hax
    · show effLevelFuel (setLogLevel m x L).all (a.length + 1) a =
        effLevelFuel m.all (a.length + 1) a
      rw [setLogLevel_all, hl']
      apply effLevelFuel_updateLevel_of_ne
      intro n hn
      intro he
      have := chainNames_length_le hm (a.length + 1) a n hn
      rw [he] at this
      omega

/-- Witness for claim C1: on the concrete registry holding "a.b.c",
setting "a.b" to DEBUG makes its effective level DEBUG. -/
theorem C1_witness :
    effectiveLogLevel (setLogLevel mABC abN Level.DEBUG) abN = Level.DEBUG :=
  (C1_effective_level_after_set mABC abN Level.DEBUG
    { name := abN, level := Level.UNSPECIFIED,
      defaultLevel := Level.UNSPECIFIED, parent := some aN }
    (WFmod_of_bool (by decide)) (by decide) (by decide)).2.1

/-- Claim C2, counterexample: on a fresh registry (root level WARNING),
registering "a.b.c" yields a node whose effective level is the root
level WARNING, not the registry's configured default level — the default
level is UNSPECIFIED, which `effectiveLogLevel` never returns for this
chain. -/
theorem C2_counterexample :
    modulesGet (newModules Level.WARNING) abcN = some (mABC, abcN) ∧
    mABC.defaultLevel = Level.UNSPECIFIED ∧
    effectiveLogLevel mABC abcN ≠ mABC.defaultLevel := by decide

/-- Claim C2 (amended): starting from a registry containing only the
root, `get "a.b.c"` creates exactly the nodes "a", "a.b" and "a.b.c"
(four nodes counting the root), gives each new node the registry's
configured default level (which is UNSPECIFIED) and links it to its
immediate dotted-prefix parent; the effective level of "a.b.c" equals
the registry's configured ROOT level until a level on its chain is
overridden; and `get` succeeds for every input string. -/
theorem C2_amended_get_creates_chain :
    modulesGet (newModules Level.WARNING) abcN = some (mABC, abcN) ∧
    mABC.all.map Prod.fst = [rootModuleName, aN, abN, abcN] ∧
    (∀ p ∈ mABC.all, p.1 ≠ rootModuleName → p.2.level = mABC.defaultLevel) ∧
    mABC.defaultLevel = Level.UNSPECIFIED ∧
    (lookupMod mABC.all aN).map LoggerState.parent = some (some rootModuleName) ∧
    (lookupMod mABC.all abN).map LoggerState.parent = some (some aN) ∧
    (lookupMod mABC.all abcN).map LoggerState.parent = some (some abN) ∧
    effectiveLogLevel mABC abcN = mABC.rootLevel ∧
    mABC.rootLevel = Level.WARNING ∧
    (∀ name : Name, (modulesGet (newModules Level.WARNING) name).isSome) := by
  refine ⟨by decide, by decide, by decide, by decide, by decide, by decide, by decide,
    by decide, by decide, ?_⟩
  intro name
  have hroot : (lookupMod (newModules Level.WARNING).all rootModuleName).isSome := by decide
  have h := resolveUnlocked_total (newModules Level.WARNING) hroot
    ((toLowerName name).length + 1) (toLowerName name) (Nat.lt_succ_self _)
  show (resolveUnlocked (maybeInitUnlocked (newModules Level.WARNING))
      ((toLowerName name).length + 1) (toLowerName name)).isSome
  rw [maybeInitUnlocked_of_ne_nil (by decide)]
  exact h

/-- Witness for claim C2: the node "a" created by the call carries the
registry's configured default level. -/
theorem C2_witness :
    ({ name := aN, level := Level.UNSPECIFIED, defaultLevel := Level.UNSPECIFIED,
       parent := some rootModuleName } : LoggerState).level = mABC.defaultLevel :=
  C2_amended_get_creates_chain.2.2.1
    (aN, { name := aN, level := Level.UNSPECIFIED, defaultLevel := Level.UNSPECIFIED,
           parent := some rootModuleName })
    (by decide) (by decide)

/-- Claim C6: `resetLevels` deletes no node, sets the root's own level
to the registry's configured root level and every other node's own level
to the (UNSPECIFIED) default level, so a subsequent `config` snapshot
holds exactly the root entry. -/
theorem C6_reset_then_config :
    ∀ m : Modules, WFmod m →
      (resetLevels m).all.map Prod.fst = m.all.map Prod.fst ∧
      (lookupMod (resetLevels m).all rootModuleName).map LoggerState.level =
        some m.rootLevel ∧
      (∀ p ∈ (resetLevels m).all, p.1 ≠ rootModuleName →
        p.2.level = Level.UNSPECIFIED) ∧
      (modulesConfig (resetLevels m)).2 = [(rootName, m.rootLevel)] := by
  intro m hm
  obtain ⟨r, hr, hrp, hrlvl, hrname⟩ := hm.root_mem
  have hmne : m.all ≠ [] := lookupMod_isSome_ne_nil (by rw [hr]; rfl)
  have hnames : ∀ p ∈ m.all, p.1 = rootModuleName → p.2.name = rootName := by
    intro p hp hp1
    have hlp : lookupMod m.all p.1 = some p.2 :=
      mem_lookupMod_of_nodup hm.nodup (by rw [Prod.mk.eta]; exact hp)
    rw [hp1, hr] at hlp
    have : p.2 = r := by
      have := hlp.symm
      injection this
    rw [this, hrname]
  refine ⟨?_, ?_, ?_, ?_⟩
  · rw [resetLevels_all]
    exact resetList_keys _ _ _
  · rw [resetLevels_all, lookupMod_resetList, hr, Option.map_some', Option.map_some']
    dsimp only
    rw [if_pos rfl]
  · intro p hp hp1
    rw [resetLevels_all] at hp
    obtain ⟨q, hq, hfq⟩ := List.mem_map.mp hp
    by_cases hq1 : q.1 = rootModuleName
    · exfalso
      rw [if_pos hq1] at hfq
      rw [← hfq] at hp1
      exact hp1 hq1
    · rw [if_neg hq1] at hfq
      rw [← hfq]
      exact hm.defaultLevel_eq
  · have hrne : (resetLevels m).all ≠ [] := by
      rw [resetLevels_all]
      intro he
      exact hmne (List.map_eq_nil_iff.mp he)
    rw [modulesConfig_snd, maybeInitUnlocked_of_ne_nil hrne, resetLevels_all,
      configList_resetList m.rootLevel m.defaultLevel hm.rootLevel_ne hm.defaultLevel_eq
        m.all hm.nodup hnames, hr]
    rfl

/-- Witness for claim C6: resetting the concrete registry that holds
"a.b.c" and snapshotting yields only the root entry. -/
theorem C6_witness :
    (modulesConfig (resetLevels mABC)).2 = [(rootName, mABC.rootLevel)] :=
  (C6_reset_then_config mABC (WFmod_of_bool (by decide))).2.2.2
